import Mathlib

/-!
Verification of the RunMeMe backend (`src/backend/main.py`) against its
natural-language specification.

The backend is a FastAPI app with four routes:
* `POST /scores` / `GET /scores` — an in-memory score board (`scores_db`),
* `GET /stage/random` — the stage-sequence generator with anti-repeat logic,
* `GET /stage/start` — a single stage with a hardcoded fallback,
* `POST /stage` — stage publishing (not needed by the claims below).

The embedding is shallow: each handler becomes a pure Lean function.  File
system state is passed explicitly (whether the stages directory exists, the
list of `.json` files it holds together with their parsed contents, whether
`flat.json` exists and what it parses to).  Randomness (`random.choice`) is
modelled by an oracle stream `idx : Nat → Nat`: at each step the code picks
element `idx i % available.length` of the available list, so every possible
run of the Python code corresponds to some stream, and every stream yields a
possible run.
-/

/-- A `.json` file of the stages directory as `GET /stage/random` sees it:
`stem` is the filename without the `.json` suffix (`f.stem` in the source),
`dataId` is the value of the `"id"` field of the parsed JSON contents
(`stage_data.get("id")`), `none` when the field is absent.  The file stands
for its own parsed contents in the returned sequence. -/
structure StageFile where
  stem : String
  dataId : Option String
deriving DecidableEq, Repr

instance : Inhabited StageFile := ⟨⟨"", none⟩⟩

/-- Python truthiness of `current_exclude_id : Optional[str]`: `None` and the
empty string are falsy (`if current_exclude_id:` in the source). -/
def truthyId : Option String → Bool
  | none => false
  | some s => s ≠ ""

/-- Lines 74–81 of the source: filter the catalog by filename stem against the
current exclude id, falling back to the whole catalog when the filter removes
every file. -/
def available_files (stageFiles : List StageFile) (excl : Option String) : List StageFile :=
  let af := if truthyId excl then stageFiles.filter (fun f => f.stem ≠ excl.getD "") else stageFiles
  if af.isEmpty then stageFiles else af

/-- The selection loop of `get_random_stage` (lines 73–87): `count` iterations,
each picking `idx step % available.length` from the available files, then
carrying the chosen file's `"id"` field as the next exclude id. -/
def genStages (stageFiles : List StageFile) : Option String → Nat → (Nat → Nat) → List StageFile
  | _, 0, _ => []
  | excl, n + 1, idx =>
    let af := available_files stageFiles excl
    let sel := af.getD (idx 0 % af.length) default
    sel :: genStages stageFiles sel.dataId n (fun k => idx (k + 1))

/-- An `HTTPException` as raised by the handlers. -/
structure HTTPError where
  status : Nat
  detail : String
deriving DecidableEq, Repr

/-- `GET /stage/random` (lines 61–89): 500 when the stages directory is
missing, 404 when it holds no `.json` files, otherwise the generated
sequence.  `count` is the (integer) query parameter; `range(count)` runs
`count.toNat` iterations. -/
def get_random_stage (dirExists : Bool) (stageFiles : List StageFile)
    (exclude_id : Option String) (count : Int) (idx : Nat → Nat) :
    Except HTTPError (List StageFile) :=
  if !dirExists then .error ⟨500, "Stages directory not found"⟩
  else if stageFiles.isEmpty then .error ⟨404, "No stages found"⟩
  else .ok (genStages stageFiles exclude_id count.toNat idx)

-- Basic facts about the available list.

theorem available_files_ne_nil (stageFiles : List StageFile) (excl : Option String)
    (h : stageFiles ≠ []) : available_files stageFiles excl ≠ [] := by
  unfold available_files
  dsimp only
  split
  · split
    · exact h
    · rename_i hne
      simpa [List.isEmpty_iff] using hne
  · split <;> exact h

theorem available_files_subset (stageFiles : List StageFile) (excl : Option String) :
    ∀ f ∈ available_files stageFiles excl, f ∈ stageFiles := by
  intro f hf
  unfold available_files at hf
  dsimp only at hf
  split at hf
  · split at hf
    · exact hf
    · exact List.mem_of_mem_filter hf
  · split at hf <;> exact hf

theorem genStages_length (stageFiles : List StageFile) :
    ∀ (n : Nat) (excl : Option String) (idx : Nat → Nat),
      (genStages stageFiles excl n idx).length = n := by
  intro n
  induction n with
  | zero => intro excl idx; rfl
  | succ m ih =>
    intro excl idx
    simp only [genStages, List.length_cons, ih]

/-- `random.choice` modelled by an index oracle picks a member of the list. -/
theorem pick_mem (l : List StageFile) (h : l ≠ []) (i : Nat) :
    l.getD (i % l.length) default ∈ l := by
  have hlen : 0 < l.length := List.length_pos.mpr h
  have hi : i % l.length < l.length := Nat.mod_lt _ hlen
  rw [List.getD_eq_getElem l default hi]
  exact List.getElem_mem hi

theorem genStages_mem (stageFiles : List StageFile) (h : stageFiles ≠ []) :
    ∀ (n : Nat) (excl : Option String) (idx : Nat → Nat),
      ∀ f ∈ genStages stageFiles excl n idx, f ∈ stageFiles := by
  intro n
  induction n with
  | zero => intro excl idx f hf; simp [genStages] at hf
  | succ m ih =>
    intro excl idx f hf
    simp only [genStages, List.mem_cons] at hf
    rcases hf with hf | hf
    · subst hf
      exact available_files_subset stageFiles excl _
        (pick_mem _ (available_files_ne_nil stageFiles excl h) _)
    · exact ih _ _ f hf

/-- The head of a (non-degenerate) run is drawn from the available files for
the initial exclude id. -/
theorem genStages_head (stageFiles : List StageFile) (h : stageFiles ≠ [])
    (n : Nat) (excl : Option String) (idx : Nat → Nat) :
    ∀ b, (genStages stageFiles excl n idx).head? = some b →
      b ∈ available_files stageFiles excl := by
  intro b hb
  cases n with
  | zero => simp [genStages] at hb
  | succ m =>
    simp only [genStages, List.head?_cons, Option.some.injEq] at hb
    subst hb
    exact pick_mem _ (available_files_ne_nil stageFiles excl h) _

/-- Every consecutive pair of a run is linked by the step relation: the later
element is drawn from the available files computed from the earlier element's
JSON `"id"` field. -/
theorem genStages_chain (stageFiles : List StageFile) (h : stageFiles ≠ []) :
    ∀ (n : Nat) (excl : Option String) (idx : Nat → Nat),
      List.Chain' (fun a b => b ∈ available_files stageFiles a.dataId)
        (genStages stageFiles excl n idx) := by
  intro n
  induction n with
  | zero => intro excl idx; simp [genStages]
  | succ m ih =>
    intro excl idx
    rw [genStages, List.chain'_cons']
    exact ⟨fun b hb => genStages_head stageFiles h m _ _ b hb, ih _ _⟩

/-- Any catalog whose stems are distinct and number at least two has, for
every stem `s`, a file with a different stem. -/
theorem exists_stem_ne (l : List StageFile) (hlen : 2 ≤ l.length)
    (hnd : (l.map StageFile.stem).Nodup) (s : String) :
    ∃ f ∈ l, f.stem ≠ s := by
  match l, hlen with
  | a :: b :: rest, _ =>
    have hab : a.stem ≠ b.stem := by
      simp only [List.map_cons, List.nodup_cons, List.mem_cons] at hnd
      exact fun hEq => hnd.1 (Or.inl hEq) |>.elim
    by_cases hs : a.stem = s
    · exact ⟨b, by simp, fun hb => hab (hs.trans hb.symm)⟩
    · exact ⟨a, by simp, hs⟩

/-- Whenever a truthy stem is excluded and some file survives the filter, the
chosen file's stem differs from the excluded one. -/
theorem mem_available_files_stem {stageFiles : List StageFile} {s : String}
    (hs : s ≠ "") (hex : ∃ f ∈ stageFiles, f.stem ≠ s) {b : StageFile}
    (hb : b ∈ available_files stageFiles (some s)) : b.stem ≠ s := by
  obtain ⟨w, hw, hws⟩ := hex
  unfold available_files at hb
  have ht : truthyId (some s) = true := by simpa [truthyId] using hs
  rw [ht] at hb
  simp only [if_true, Option.getD_some] at hb
  have hfe : (stageFiles.filter (fun f => f.stem ≠ s)).isEmpty = false := by
    rw [List.isEmpty_eq_false_iff_exists_mem]
    exact ⟨w, List.mem_filter.mpr ⟨hw, by simpa using hws⟩⟩
  rw [hfe] at hb
  simp only [Bool.false_eq_true, if_false] at hb
  simpa using (List.mem_filter.mp hb).2

theorem available_files_singleton (f : StageFile) (excl : Option String) :
    available_files [f] excl = [f] := by
  unfold available_files
  dsimp only
  cases excl with
  | none => rfl
  | some s =>
    by_cases hs : s = ""
    · subst hs; rfl
    · have ht : truthyId (some s) = true := by simpa [truthyId] using hs
      rw [ht]
      simp only [if_true, Option.getD_some, List.filter]
      by_cases hfs : f.stem = s
      · simp [hfs]
      · simp [hfs]

theorem genStages_singleton (f : StageFile) :
    ∀ (n : Nat) (excl : Option String) (idx : Nat → Nat),
      genStages [f] excl n idx = List.replicate n f := by
  intro n
  induction n with
  | zero => intro excl idx; rfl
  | succ m ih =>
    intro excl idx
    rw [genStages, available_files_singleton]
    simp only [List.length_singleton, Nat.mod_one, List.getD]
    rw [ih, List.replicate_succ]
    rfl

/-- C1 (amended).  For a catalog of at least two files whose filename stems
are pairwise distinct and non-empty (as `pathlib` stems of distinct `.json`
files are) and whose JSON `"id"` fields each equal the file's stem, every
run of `GET /stage/random` yields a sequence in which adjacent entries carry
distinct identifiers. -/
theorem c1_adjacent_ids_distinct (stageFiles : List StageFile)
    (exclude_id : Option String) (count : Int) (idx : Nat → Nat)
    (l : List StageFile)
    (hlen : 2 ≤ stageFiles.length)
    (hnd : (stageFiles.map StageFile.stem).Nodup)
    (hne : ∀ f ∈ stageFiles, f.stem ≠ "")
    (hid : ∀ f ∈ stageFiles, f.dataId = some f.stem)
    (hcount : 2 ≤ count)
    (hok : get_random_stage true stageFiles exclude_id count idx = .ok l) :
    ∀ (i : Nat) (hi : i + 1 < l.length),
      (l.get ⟨i, by omega⟩).dataId ≠ (l.get ⟨i + 1, hi⟩).dataId := by
  have h0 : stageFiles ≠ [] := by
    intro hnil; rw [hnil] at hlen; simp at hlen
  have hl : l = genStages stageFiles exclude_id count.toNat idx := by
    unfold get_random_stage at hok
    simp only [Bool.not_true, Bool.false_eq_true, if_false,
      List.isEmpty_iff, h0, Except.ok.injEq] at hok
    exact hok.symm
  have hchain := genStages_chain stageFiles h0 count.toNat exclude_id idx
  have hmem := genStages_mem stageFiles h0 count.toNat exclude_id idx
  rw [← hl] at hchain hmem
  rw [List.chain'_iff_get] at hchain
  intro i hi
  have hR : l.get ⟨i + 1, hi⟩ ∈
      available_files stageFiles (l.get ⟨i, by omega⟩).dataId := hchain i (by omega)
  have ha : l.get ⟨i, by omega⟩ ∈ stageFiles := hmem _ (List.get_mem l i (by omega))
  have hb : l.get ⟨i + 1, hi⟩ ∈ stageFiles := hmem _ (List.get_mem l (i + 1) hi)
  rw [hid _ ha] at hR
  have hstem : (l.get ⟨i + 1, hi⟩).stem ≠ (l.get ⟨i, by omega⟩).stem :=
    mem_available_files_stem (hne _ ha) (exists_stem_ne stageFiles hlen hnd _) hR
  rw [hid _ ha, hid _ hb]
  intro hc
  exact hstem (Option.some.inj hc).symm

/-- Witness for C1: catalog `{a, b}` with ids matching stems, count 2,
the run picking index 0 each time yields `[a, b]` with distinct adjacent
identifiers. -/
theorem c1_adjacent_ids_distinct_witness :
    get_random_stage true [⟨"a", some "a"⟩, ⟨"b", some "b"⟩] none 2 (fun _ => 0) =
      .ok [⟨"a", some "a"⟩, ⟨"b", some "b"⟩] ∧
    (([⟨"a", some "a"⟩, ⟨"b", some "b"⟩] : List StageFile).get ⟨0, by decide⟩).dataId ≠
      (([⟨"a", some "a"⟩, ⟨"b", some "b"⟩] : List StageFile).get ⟨1, by decide⟩).dataId :=
  ⟨rfl, c1_adjacent_ids_distinct [⟨"a", some "a"⟩, ⟨"b", some "b"⟩] none 2 (fun _ => 0)
    [⟨"a", some "a"⟩, ⟨"b", some "b"⟩] (by decide) (by decide) (by decide) (by decide)
    (by decide) rfl 0 (by decide)⟩

/-- Counterexample to C1 as stated: two files `a.json`, `b.json` whose JSON
contents both carry `"id": "c"`.  The run picking index 0 each time returns
the same stage twice in a row: the filename-stem filter never removes
anything because the forbidden identifier is the internal `"id"`, so the
adjacency invariant fails although the catalog has two files and count is 2. -/
theorem c1_counterexample :
    get_random_stage true [⟨"a", some "c"⟩, ⟨"b", some "c"⟩] none 2 (fun _ => 0) =
      .ok [⟨"a", some "c"⟩, ⟨"a", some "c"⟩] ∧
    (([⟨"a", some "c"⟩, ⟨"a", some "c"⟩] : List StageFile).get ⟨0, by decide⟩).dataId =
      (([⟨"a", some "c"⟩, ⟨"a", some "c"⟩] : List StageFile).get ⟨1, by decide⟩).dataId :=
  ⟨rfl, rfl⟩

/-- C2 (amended).  `get_random_stage` performs no validation of `count`: for
`count ≤ 0` the loop body runs zero times and the handler succeeds with the
empty sequence instead of failing with any `InvalidCountError`. -/
theorem c2_count_nonpositive_empty (stageFiles : List StageFile)
    (exclude_id : Option String) (count : Int) (idx : Nat → Nat)
    (h : stageFiles ≠ []) (hc : count ≤ 0) :
    get_random_stage true stageFiles exclude_id count idx = .ok [] := by
  unfold get_random_stage
  rw [Int.toNat_of_nonpos hc]
  simp [List.isEmpty_iff, h, genStages]

/-- Witness for C2 (amended) at a singleton catalog and `count = -3`. -/
theorem c2_count_nonpositive_empty_witness :
    get_random_stage true [⟨"a", some "a"⟩] none (-3) (fun _ => 0) = .ok [] :=
  c2_count_nonpositive_empty [⟨"a", some "a"⟩] none (-3) (fun _ => 0)
    (by decide) (by decide)

/-- Counterexample to C2 as stated: with a non-empty catalog and `count = 0`
the handler returns the (empty) sequence `.ok []` — it does not fail. -/
theorem c2_counterexample :
    get_random_stage true [⟨"flat", some "flat"⟩] none 0 (fun _ => 0) = .ok [] :=
  rfl

/-- C3.  With at least two distinct (non-empty) stems in the catalog and an
exclude id `X` present among them, the first element of a `count = 1`
request never has stem `X`: the filter leaves a non-empty candidate list, so
the fallback that would re-admit `X` is not taken. -/
theorem c3_first_element_not_excluded (stageFiles : List StageFile) (X : String)
    (idx : Nat → Nat) (l : List StageFile)
    (hlen : 2 ≤ stageFiles.length)
    (hnd : (stageFiles.map StageFile.stem).Nodup)
    (hne : ∀ f ∈ stageFiles, f.stem ≠ "")
    (hX : X ∈ stageFiles.map StageFile.stem)
    (hok : get_random_stage true stageFiles (some X) 1 idx = .ok l) :
    ∀ f₀, l.head? = some f₀ → f₀.stem ≠ X := by
  have h0 : stageFiles ≠ [] := by
    intro hnil; rw [hnil] at hlen; simp at hlen
  have hl : l = genStages stageFiles (some X) 1 idx := by
    unfold get_random_stage at hok
    simp only [Bool.not_true, Bool.false_eq_true, if_false,
      List.isEmpty_iff, h0, Except.ok.injEq] at hok
    exact hok.symm
  intro f₀ hf₀
  have hXne : X ≠ "" := by
    rw [List.mem_map] at hX
    obtain ⟨f, hf, hfX⟩ := hX
    rw [← hfX]
    exact hne f hf
  have hhead := genStages_head stageFiles h0 1 (some X) idx f₀ (hl ▸ hf₀)
  exact mem_available_files_stem hXne (exists_stem_ne stageFiles hlen hnd X) hhead

/-- Witness for C3: catalog `{a, b}`, exclude `a`, count 1: the run picks
`b`, whose stem differs from `a`. -/
theorem c3_first_element_not_excluded_witness :
    get_random_stage true [⟨"a", some "a"⟩, ⟨"b", some "b"⟩] (some "a") 1 (fun _ => 0) =
      .ok [⟨"b", some "b"⟩] ∧
    (⟨"b", some "b"⟩ : StageFile).stem ≠ "a" :=
  ⟨rfl, c3_first_element_not_excluded [⟨"a", some "a"⟩, ⟨"b", some "b"⟩] "a"
    (fun _ => 0) [⟨"b", some "b"⟩] (by decide) (by decide) (by decide) (by decide)
    rfl ⟨"b", some "b"⟩ rfl⟩

/-- C4.  For a single-file catalog the handler succeeds for every count ≥ 1
— even when the exclude id equals that file's stem, the fallback re-admits
it — and every position of the sequence is that single file. -/
theorem c4_singleton_catalog (f : StageFile) (exclude_id : Option String)
    (count : Int) (idx : Nat → Nat) (hc : 1 ≤ count) :
    get_random_stage true [f] exclude_id count idx =
      .ok (List.replicate count.toNat f) := by
  unfold get_random_stage
  simp only [Bool.not_true, Bool.false_eq_true, if_false, List.isEmpty_cons,
    genStages_singleton]

/-- Witness for C4: singleton catalog `{a}`, exclude id equal to the single
stem, count 3: the sequence is `a` three times. -/
theorem c4_singleton_catalog_witness :
    get_random_stage true [⟨"a", some "a"⟩] (some "a") 3 (fun _ => 0) =
      .ok (List.replicate 3 ⟨"a", some "a"⟩) :=
  c4_singleton_catalog ⟨"a", some "a"⟩ (some "a") 3 (fun _ => 0) (by decide)

/-- C6.  The handler's only failure modes: HTTP 500 `Stages directory not
found` when the directory is absent (whatever the catalog argument), HTTP
404 `No stages found` when it exists but holds no `.json` file, and on a
non-empty catalog it always returns an `.ok` sequence. -/
theorem c6_failure_modes :
    (∀ (stageFiles : List StageFile) (e : Option String) (c : Int) (idx : Nat → Nat),
      get_random_stage false stageFiles e c idx =
        .error ⟨500, "Stages directory not found"⟩) ∧
    (∀ (e : Option String) (c : Int) (idx : Nat → Nat),
      get_random_stage true [] e c idx = .error ⟨404, "No stages found"⟩) ∧
    (∀ (stageFiles : List StageFile) (e : Option String) (c : Int) (idx : Nat → Nat),
      stageFiles ≠ [] →
        ∃ l, get_random_stage true stageFiles e c idx = .ok l) := by
  refine ⟨fun stageFiles e c idx => rfl, fun e c idx => rfl, ?_⟩
  intro stageFiles e c idx h
  exact ⟨genStages stageFiles e c.toNat idx, by
    unfold get_random_stage
    simp [List.isEmpty_iff, h]⟩

/-- Witness for C6: the three branches at concrete inputs. -/
theorem c6_failure_modes_witness :
    get_random_stage false [⟨"a", some "a"⟩] none 20 (fun _ => 0) =
      .error ⟨500, "Stages directory not found"⟩ ∧
    get_random_stage true [] none 20 (fun _ => 0) =
      .error ⟨404, "No stages found"⟩ ∧
    ∃ l, get_random_stage true [⟨"a", some "a"⟩] none 20 (fun _ => 0) = .ok l :=
  ⟨c6_failure_modes.1 [⟨"a", some "a"⟩] none 20 (fun _ => 0),
   c6_failure_modes.2.1 none 20 (fun _ => 0),
   c6_failure_modes.2.2 [⟨"a", some "a"⟩] none 20 (fun _ => 0) (by decide)⟩

/-- C7.  On a non-empty catalog with positive count, the returned sequence
has length exactly `count`. -/
theorem c7_sequence_length (stageFiles : List StageFile) (e : Option String)
    (count : Int) (idx : Nat → Nat) (h : stageFiles ≠ []) (hc : 1 ≤ count) :
    ∃ l, get_random_stage true stageFiles e count idx = .ok l ∧
      (l.length : Int) = count := by
  refine ⟨genStages stageFiles e count.toNat idx, ?_, ?_⟩
  · unfold get_random_stage
    simp [List.isEmpty_iff, h]
  · rw [genStages_length]
    exact Int.toNat_of_nonneg (by omega)

/-- Witness for C7: singleton catalog, count 5. -/
theorem c7_sequence_length_witness :
    ∃ l, get_random_stage true [⟨"a", some "a"⟩] none 5 (fun _ => 0) = .ok l ∧
      (l.length : Int) = 5 :=
  c7_sequence_length [⟨"a", some "a"⟩] none 5 (fun _ => 0) (by decide) (by decide)

/-- C5.  The exclusion mechanism of the loop: the identifier forbidden at
position `i ≥ 1` is the JSON `"id"` field of the file chosen at position
`i - 1`, matched against the *filename stems* of the candidates (first
conjunct), and when that field is absent (`none`) or the empty string no
exclusion at all is applied, so the very same file may repeat adjacently
(second and third conjuncts). -/
theorem c5_exclusion_mechanism :
    (∀ (stageFiles : List StageFile) (excl : Option String) (count : Int)
       (idx : Nat → Nat) (l : List StageFile),
       stageFiles ≠ [] →
       get_random_stage true stageFiles excl count idx = .ok l →
       ∀ (i : Nat) (hi : i + 1 < l.length) (s : String),
         (l.get ⟨i, by omega⟩).dataId = some s → s ≠ "" →
         (∃ f ∈ stageFiles, f.stem ≠ s) → (l.get ⟨i + 1, hi⟩).stem ≠ s) ∧
    get_random_stage true [⟨"a", none⟩, ⟨"b", some "b"⟩] none 2 (fun _ => 0) =
      .ok [⟨"a", none⟩, ⟨"a", none⟩] ∧
    get_random_stage true [⟨"a", some ""⟩, ⟨"b", some "b"⟩] none 2 (fun _ => 0) =
      .ok [⟨"a", some ""⟩, ⟨"a", some ""⟩] := by
  refine ⟨?_, rfl, rfl⟩
  intro stageFiles excl count idx l h0 hok i hi s hsid hsne hex
  have hl : l = genStages stageFiles excl count.toNat idx := by
    unfold get_random_stage at hok
    simp only [Bool.not_true, Bool.false_eq_true, if_false,
      List.isEmpty_iff, h0, Except.ok.injEq] at hok
    exact hok.symm
  have hchain := genStages_chain stageFiles h0 count.toNat excl idx
  rw [← hl, List.chain'_iff_get] at hchain
  have hR : l.get ⟨i + 1, hi⟩ ∈
      available_files stageFiles (l.get ⟨i, by omega⟩).dataId := hchain i (by omega)
  rw [hsid] at hR
  exact mem_available_files_stem hsne hex hR

/-- Witness for C5: catalog `{a ↦ id b, b ↦ id a}`; after picking file `a`
(internal id `"b"`), the next pick's stem differs from `"b"` — so the run
repeats file `a`, whose stem is not `"b"`. -/
theorem c5_exclusion_mechanism_witness :
    get_random_stage true [⟨"a", some "b"⟩, ⟨"b", some "a"⟩] none 2 (fun _ => 0) =
      .ok [⟨"a", some "b"⟩, ⟨"a", some "b"⟩] ∧
    (([⟨"a", some "b"⟩, ⟨"a", some "b"⟩] : List StageFile).get ⟨1, by decide⟩).stem ≠ "b" :=
  ⟨rfl, c5_exclusion_mechanism.1 [⟨"a", some "b"⟩, ⟨"b", some "a"⟩] none 2 (fun _ => 0)
    [⟨"a", some "b"⟩, ⟨"a", some "b"⟩] (by decide) rfl 0 (by decide) "b" rfl (by decide)
    ⟨⟨"a", some "b"⟩, by decide, by decide⟩⟩

/-! ## The score board (`POST /scores`, `GET /scores`) -/

/-- An entry of `scores_db` (the `Score` pydantic model): an integer score
and a player name (default `"Player"` is applied by the HTTP layer). -/
structure Score where
  score : Int
  name : String
deriving DecidableEq, Repr

/-- Stable descending insertion of one entry: the new entry goes before the
first strictly smaller score, i.e. after every already-present entry with an
equal score. -/
def insertScoreDesc (x : Score) : List Score → List Score
  | [] => [x]
  | y :: ys => if y.score < x.score then x :: y :: ys else y :: insertScoreDesc x ys

/-- `scores_db.sort(key=lambda x: x.score, reverse=True)`: Python's sort is
specified to be stable, and with `reverse=True` it is the stable descending
sort by score — equal scores keep their relative order.  Stable insertion
sort computes exactly that function. -/
def sortScoresDesc (l : List Score) : List Score :=
  l.foldl (fun acc x => insertScoreDesc x acc) []

/-- `POST /scores` (lines 47–55): append, stable-sort descending, pop the
last entry when the list exceeds 100, and answer `"Score submitted"`. -/
def submit_score (s : Score) (db : List Score) : List Score × String :=
  let db2 := sortScoresDesc (db ++ [s])
  (if 100 < db2.length then db2.dropLast else db2, "Score submitted")

/-- `GET /scores` (lines 57–59): the first ten stored entries. -/
def get_scores (db : List Score) : List Score := db.take 10

/-- The state of `scores_db` after a sequence of `POST /scores` requests,
starting from the empty initial list. -/
def runSubmits (subs : List Score) : List Score :=
  subs.foldl (fun db s => (submit_score s db).1) []

theorem mem_insertScoreDesc {z x : Score} {l : List Score} :
    z ∈ insertScoreDesc x l ↔ z = x ∨ z ∈ l := by
  induction l with
  | nil => simp [insertScoreDesc]
  | cons y ys ih =>
    unfold insertScoreDesc
    split
    · simp [List.mem_cons]
    · simp only [List.mem_cons, ih]
      tauto

theorem insertScoreDesc_pairwise (x : Score) (l : List Score)
    (h : l.Pairwise (fun a b => b.score ≤ a.score)) :
    (insertScoreDesc x l).Pairwise (fun a b => b.score ≤ a.score) := by
  induction l with
  | nil => simp [insertScoreDesc]
  | cons y ys ih =>
    rw [List.pairwise_cons] at h
    unfold insertScoreDesc
    split
    · rename_i hlt
      rw [List.pairwise_cons]
      refine ⟨?_, List.pairwise_cons.mpr h⟩
      intro z hz
      rcases List.mem_cons.mp hz with hz | hz
      · subst hz; omega
      · have := h.1 z hz; omega
    · rename_i hge
      rw [List.pairwise_cons]
      refine ⟨?_, ih h.2⟩
      intro z hz
      rcases mem_insertScoreDesc.mp hz with hz | hz
      · subst hz; omega
      · exact h.1 z hz

theorem sortScoresDesc_pairwise (l : List Score) :
    (sortScoresDesc l).Pairwise (fun a b => b.score ≤ a.score) := by
  suffices hgen : ∀ (l acc : List Score),
      acc.Pairwise (fun a b => b.score ≤ a.score) →
      (l.foldl (fun acc x => insertScoreDesc x acc) acc).Pairwise
        (fun a b => b.score ≤ a.score) by
    exact hgen l [] (by simp)
  intro l
  induction l with
  | nil => intro acc hacc; simpa using hacc
  | cons x xs ih =>
    intro acc hacc
    exact ih _ (insertScoreDesc_pairwise x acc hacc)

theorem sortScoresDesc_append_singleton (l : List Score) (s : Score) :
    sortScoresDesc (l ++ [s]) = insertScoreDesc s (sortScoresDesc l) := by
  simp [sortScoresDesc, List.foldl_append]

theorem insertScoreDesc_eq_append (x : Score) (l : List Score)
    (h : ∀ y ∈ l, x.score ≤ y.score) : insertScoreDesc x l = l ++ [x] := by
  induction l with
  | nil => rfl
  | cons y ys ih =>
    unfold insertScoreDesc
    have hy : x.score ≤ y.score := h y (by simp)
    rw [if_neg (by omega)]
    rw [ih (fun z hz => h z (by simp [hz]))]
    rfl

theorem sortScoresDesc_of_pairwise (l : List Score)
    (h : l.Pairwise (fun a b => b.score ≤ a.score)) : sortScoresDesc l = l := by
  suffices hgen : ∀ (l acc : List Score),
      (acc ++ l).Pairwise (fun a b => b.score ≤ a.score) →
      l.foldl (fun acc x => insertScoreDesc x acc) acc = acc ++ l by
    simpa using hgen l [] (by simpa using h)
  intro l
  induction l with
  | nil => intro acc hacc; simp
  | cons x xs ih =>
    intro acc hacc
    have hx : ∀ y ∈ acc, x.score ≤ y.score := by
      intro y hy
      have := (List.pairwise_append.mp hacc).2.2 y hy x (by simp)
      exact this
    simp only [List.foldl_cons]
    rw [insertScoreDesc_eq_append x acc hx, ih]
    · simp
    · rw [List.append_assoc]
      simpa using hacc

theorem insertScoreDesc_length (x : Score) (l : List Score) :
    (insertScoreDesc x l).length = l.length + 1 := by
  induction l with
  | nil => rfl
  | cons y ys ih =>
    unfold insertScoreDesc
    split
    · simp
    · simp [ih]

/-- Truncating to the first `n` entries commutes with stable insertion in
the sense needed for the 100-cap: inserting into the truncated board and
truncating again agrees with truncating the insertion into the full board. -/
theorem take_insertScoreDesc (x : Score) (l : List Score) :
    ∀ n : Nat, (insertScoreDesc x l).take n = (insertScoreDesc x (l.take n)).take n := by
  induction l with
  | nil => intro n; simp
  | cons y ys ih =>
    intro n
    cases n with
    | zero => simp
    | succ m =>
      have hmin : min m (m + 1) = m := by omega
      by_cases hlt : y.score < x.score
      · have e1 : insertScoreDesc x (y :: ys) = x :: y :: ys := by
          simp only [insertScoreDesc]
          rw [if_pos hlt]
        have e2 : insertScoreDesc x (y :: ys.take m) = x :: y :: ys.take m := by
          simp only [insertScoreDesc]
          rw [if_pos hlt]
        simp only [e1, List.take_succ_cons, e2]
        have key : List.take m (y :: List.take m ys) = List.take m (y :: ys) := by
          rw [← List.take_succ_cons, List.take_take, hmin]
        rw [key]
      · have e1 : insertScoreDesc x (y :: ys) = y :: insertScoreDesc x ys := by
          simp only [insertScoreDesc]
          rw [if_neg hlt]
        have e2 : insertScoreDesc x (y :: ys.take m) = y :: insertScoreDesc x (ys.take m) := by
          simp only [insertScoreDesc]
          rw [if_neg hlt]
        simp only [e1, List.take_succ_cons, e2]
        rw [ih m]

/-- The board after any submission history is the 100-entry cap of the
stable descending sort of the whole history — in particular ties are broken
by submission order. -/
theorem runSubmits_eq (subs : List Score) :
    runSubmits subs = (sortScoresDesc subs).take 100 := by
  induction subs using List.reverseRecOn with
  | nil => rfl
  | append_singleton subs s ih =>
    have hstep : runSubmits (subs ++ [s]) = (submit_score s (runSubmits subs)).1 := by
      unfold runSubmits
      rw [List.foldl_append]
      rfl
    rw [hstep, ih]
    unfold submit_score
    have hSp := sortScoresDesc_pairwise subs
    have hdbp : ((sortScoresDesc subs).take 100).Pairwise (fun a b => b.score ≤ a.score) :=
      List.Pairwise.sublist (List.take_sublist _ _) hSp
    rw [sortScoresDesc_append_singleton, sortScoresDesc_append_singleton,
      sortScoresDesc_of_pairwise _ hdbp]
    dsimp only
    rw [take_insertScoreDesc s (sortScoresDesc subs) 100]
    have hlen : (insertScoreDesc s ((sortScoresDesc subs).take 100)).length ≤ 101 := by
      rw [insertScoreDesc_length]
      have := List.length_take_le 100 (sortScoresDesc subs)
      omega
    by_cases hc : 100 < (insertScoreDesc s ((sortScoresDesc subs).take 100)).length
    · rw [if_pos hc, List.dropLast_eq_take]
      have h100 : (insertScoreDesc s ((sortScoresDesc subs).take 100)).length - 1 = 100 := by
        omega
      rw [h100]
    · rw [if_neg hc]
      exact (List.take_of_length_le (by omega)).symm

/-- C8.  After every sequence of `POST /scores` submissions the stored list
is the 100-cap of the stable descending sort of the submission history (so
it holds at most 100 entries, is sorted descending by score, and breaks
ties by insertion order), `GET /scores` returns its first ten entries, and
the concrete scenario (10, X), (5, Y), (20, Z) yields Z(20), X(10), Y(5). -/
theorem c8_scoreboard_invariant :
    (∀ subs : List Score, runSubmits subs = (sortScoresDesc subs).take 100) ∧
    (∀ subs : List Score, (runSubmits subs).length ≤ 100) ∧
    (∀ subs : List Score,
      (runSubmits subs).Pairwise (fun a b => b.score ≤ a.score)) ∧
    (∀ subs : List Score,
      get_scores (runSubmits subs) = (sortScoresDesc subs).take 10) ∧
    get_scores (runSubmits [⟨10, "X"⟩, ⟨5, "Y"⟩, ⟨20, "Z"⟩]) =
      [⟨20, "Z"⟩, ⟨10, "X"⟩, ⟨5, "Y"⟩] := by
  refine ⟨runSubmits_eq, ?_, ?_, ?_, by decide⟩
  · intro subs
    rw [runSubmits_eq]
    exact List.length_take_le 100 _
  · intro subs
    rw [runSubmits_eq]
    exact List.Pairwise.sublist (List.take_sublist _ _) (sortScoresDesc_pairwise subs)
  · intro subs
    rw [get_scores, runSubmits_eq, List.take_take]
    norm_num

/-- C10.  Submitting a score no greater than every stored score to a full
(100-entry, sorted) board succeeds with `"Score submitted"` but leaves the
board unchanged: the new entry lands at the very end after the stable sort
and is exactly the entry popped by the 100-cap. -/
theorem c10_full_board_unchanged (s : Score) (db : List Score)
    (hlen : db.length = 100)
    (hsorted : db.Pairwise (fun a b => b.score ≤ a.score))
    (hmin : ∀ e ∈ db, s.score ≤ e.score) :
    submit_score s db = (db, "Score submitted") := by
  unfold submit_score
  rw [sortScoresDesc_append_singleton, sortScoresDesc_of_pairwise db hsorted,
    insertScoreDesc_eq_append s db hmin]
  dsimp only
  have hl : 100 < (db ++ [s]).length := by
    simp [hlen]
  rw [if_pos hl, List.dropLast_concat]

/-- Witness for C10: a full board of a hundred 5-point entries and a new
5-point entry — the request answers `"Score submitted"` and the board is
unchanged. -/
theorem c10_full_board_unchanged_witness :
    submit_score ⟨5, "B"⟩ (List.replicate 100 ⟨5, "A"⟩) =
      (List.replicate 100 ⟨5, "A"⟩, "Score submitted") :=
  c10_full_board_unchanged ⟨5, "B"⟩ (List.replicate 100 ⟨5, "A"⟩)
    (by simp)
    (List.pairwise_replicate.mpr (Or.inr (le_refl _)))
    (fun e he => by rw [List.eq_of_mem_replicate he])

/-! ## `GET /stage/start` -/

/-- A JSON value, enough to express stage definitions; numeric literals of
the fallback object are integers. -/
inductive Json where
  | null : Json
  | bool : Bool → Json
  | num : Int → Json
  | str : String → Json
  | arr : List Json → Json
  | obj : List (String × Json) → Json

/-- Field lookup in a JSON object, `none` on other values. -/
def Json.getField : Json → String → Option Json
  | .obj fields, k => fields.lookup k
  | _, _ => none

/-- The hardcoded fallback object of `get_start_point` (lines 96–103). -/
def flatFallback : Json :=
  .obj [("id", .str "flat_fallback"), ("width", .num 800),
    ("elements", .arr [.obj [("type", .str "platform"), ("x", .num 0),
      ("y", .num 500), ("width", .num 800), ("height", .num 50)]])]

/-- `GET /stage/start` (lines 91–108): the parsed contents of `flat.json`
when the file exists (`some`), the hardcoded fallback when it is missing
(`none`).  The function is total: no error is raised in either case. -/
def get_start_point (flatJson : Option Json) : Json :=
  match flatJson with
  | none => flatFallback
  | some stage_data => stage_data

/-- C9.  `GET /stage/start` returns exactly the parsed `flat.json` when the
file exists, and otherwise exactly the hardcoded fallback — id
`"flat_fallback"`, width 800, and a single platform element at x 0, y 500,
width 800, height 50 — never an error (the handler is total by
construction). -/
theorem c9_start_point_fallback :
    (∀ stage_data : Json, get_start_point (some stage_data) = stage_data) ∧
    get_start_point none = flatFallback ∧
    (get_start_point none).getField "id" = some (.str "flat_fallback") ∧
    (get_start_point none).getField "width" = some (.num 800) ∧
    (get_start_point none).getField "elements" =
      some (.arr [.obj [("type", .str "platform"), ("x", .num 0),
        ("y", .num 500), ("width", .num 800), ("height", .num 50)]]) :=
  ⟨fun _ => rfl, rfl, rfl, rfl, rfl⟩
